import Mathlib

/-
Verification development for the GraphLab backend.

Shallow embedding of the backend services into Lean 4:
pure utilities (slug, permissions, password wrappers) become Lean functions;
database-backed service operations become explicit state passing over a `DB`
record mirroring the relational tables they touch; Python exceptions become
`Except ServiceError`; external collaborators (the graph database driver, the
bcrypt primitive) are modelled as explicit oracles or idealized primitives.
Identifiers follow the Python source names (`app/utils/slug.py`,
`app/utils/permissions.py`, `app/core/security.py`,
`app/services/lab_member.py`, `app/services/kg_schema.py`,
`app/services/neo4j_connection.py`, `app/services/research_keyword.py`).
-/

namespace GraphLab

/-- Error taxonomy from `app/utils/exceptions.py` (the kinds used by the
services under study). -/
inductive ServiceError where
  | authenticationError (msg : String)
  | authorizationError (msg : String)
  | validationError (msg : String)
  | notFoundError (msg : String)
  | conflictError (msg : String)
deriving DecidableEq

/-- Lab member roles: the storage enum from `app/models/lab_member.py` is
`('owner', 'admin', 'editor', 'viewer')`. -/
inductive Role where
  | owner
  | admin
  | editor
  | viewer
deriving DecidableEq, Fintype

/-- The twelve named capabilities of the RBAC table in
`app/utils/permissions.py` (`LabPermissions.ROLE_PERMISSIONS`). -/
inductive Capability where
  | manage_lab
  | delete_lab
  | transfer_ownership
  | manage_members
  | manage_settings
  | manage_schemas
  | manage_connections
  | run_jobs
  | delete_data
  | create_brainstorm
  | view_data
  | participate_conversations
deriving DecidableEq, Fintype

/-- The `'owner'` row of `ROLE_PERMISSIONS`. -/
def ownerPermissions (c : Capability) : Bool :=
  match c with
  | .manage_lab => true
  | .delete_lab => true
  | .transfer_ownership => true
  | .manage_members => true
  | .manage_settings => true
  | .manage_schemas => true
  | .manage_connections => true
  | .run_jobs => true
  | .delete_data => true
  | .create_brainstorm => true
  | .view_data => true
  | .participate_conversations => true

/-- The `'admin'` row of `ROLE_PERMISSIONS`. -/
def adminPermissions (c : Capability) : Bool :=
  match c with
  | .manage_lab => false
  | .delete_lab => false
  | .transfer_ownership => false
  | .manage_members => true
  | .manage_settings => true
  | .manage_schemas => true
  | .manage_connections => true
  | .run_jobs => true
  | .delete_data => true
  | .create_brainstorm => true
  | .view_data => true
  | .participate_conversations => true

/-- The `'viewer'` row of `ROLE_PERMISSIONS`. -/
def viewerPermissions (c : Capability) : Bool :=
  match c with
  | .manage_lab => false
  | .delete_lab => false
  | .transfer_ownership => false
  | .manage_members => false
  | .manage_settings => false
  | .manage_schemas => false
  | .manage_connections => false
  | .run_jobs => false
  | .delete_data => false
  | .create_brainstorm => false
  | .view_data => true
  | .participate_conversations => true

/-- `LabPermissions.ROLE_PERMISSIONS`: dict keyed by the three modeled role
strings; the `editor` role of the storage enum has no row. -/
def ROLE_PERMISSIONS (r : Role) : Option (Capability → Bool) :=
  match r with
  | .owner => some ownerPermissions
  | .admin => some adminPermissions
  | .viewer => some viewerPermissions
  | .editor => none

/-- `LabPermissions.can_perform`: roles absent from the table can do
nothing (`.get(permission, False)` with the role lookup guarded). -/
def can_perform (r : Role) (c : Capability) : Bool :=
  match ROLE_PERMISSIONS r with
  | none => false
  | some perms => perms c

/-- `LabPermissions.is_admin_role`: `role in ['owner', 'admin']`. -/
def is_admin_role (r : Role) : Bool :=
  r == .owner || r == .admin

/-- C4 counterexample: the claim says the admin role has every capability
true except `delete_lab` and `transfer_ownership`, but the table stores
`manage_lab: False` for admin, and `manage_lab` is neither of the two
claimed exceptions. -/
theorem c4_rbac_matrix_counterexample :
    ¬ (∀ c : Capability, c ≠ .delete_lab → c ≠ .transfer_ownership →
        can_perform .admin c = true) := by
  decide

/-- C4 (amended): in the static role-to-capability table, owner has every
capability true; admin has every capability true except `manage_lab`,
`delete_lab` and `transfer_ownership`; viewer has only `view_data` and
`participate_conversations` true. -/
theorem c4_rbac_matrix_amended :
    (∀ c : Capability, can_perform .owner c = true) ∧
    (∀ c : Capability, can_perform .admin c = true ↔
      (c ≠ .manage_lab ∧ c ≠ .delete_lab ∧ c ≠ .transfer_ownership)) ∧
    (∀ c : Capability, can_perform .viewer c = true ↔
      (c = .view_data ∨ c = .participate_conversations)) := by
  decide

/-! Slug utilities from `app/utils/slug.py`, embedded over `List Char`.
Only the ASCII plane is modelled (the claims are settled on ASCII inputs);
the regex classes are the ASCII readings of `\w`, `\s`, `[a-z0-9-]`. -/

/-- ASCII reading of the regex class `\s`, which is also the character set
stripped by the Python `str.strip()` call in `name_to_slug`. -/
def pyWhitespace (c : Char) : Bool :=
  c == ' ' || c == '\t' || c == '\n' || c == '\r' || c == '\x0b' || c == '\x0c'

/-- ASCII reading of the regex class `\w` (letters, digits, underscore). -/
def isWordChar (c : Char) : Bool :=
  c.isAlphanum || c == '_'

/-- A character surviving `re.sub(r'[^\w\s-]', '', name)`. -/
def keepChar (c : Char) : Bool :=
  isWordChar c || pyWhitespace c || c == '-'

/-- The regex class `[\s_]` of the second substitution in `name_to_slug`. -/
def pWsU (c : Char) : Bool :=
  pyWhitespace c || c == '_'

/-- The regex class `-` of the third substitution in `name_to_slug`. -/
def isDash (c : Char) : Bool :=
  c == '-'

/-- The regex class `[a-z0-9-]` of `is_valid_slug`, stated over code points. -/
def slugClassChar (c : Char) : Bool :=
  (97 ≤ c.toNat && c.toNat ≤ 122) || (48 ≤ c.toNat && c.toNat ≤ 57) || c == '-'

/-- Remove trailing characters satisfying `p` (the right half of a Python
`strip`). -/
def rstripChars (p : Char → Bool) : List Char → List Char
  | [] => []
  | c :: cs =>
    match rstripChars p cs with
    | [] => if p c then [] else [c]
    | d :: ds => c :: d :: ds

/-- Python `str.strip(chars)`: drop the characters satisfying `p` from both
ends. -/
def stripChars (p : Char → Bool) (l : List Char) : List Char :=
  rstripChars p (l.dropWhile p)

/-- `re.sub` with a one-character-class pattern applied to a run: every
maximal run of characters satisfying `p` is replaced by the single
character `r`. -/
def subRuns (p : Char → Bool) (r : Char) : List Char → List Char
  | [] => []
  | [c] => if p c then [r] else [c]
  | c :: d :: cs =>
    if p c then
      if p d then subRuns p r (d :: cs)
      else r :: subRuns p r (d :: cs)
    else c :: subRuns p r (d :: cs)

/-- No two adjacent characters of the list both satisfy `p`. -/
def noAdjacent (p : Char → Bool) : List Char → Bool
  | [] => true
  | [_] => true
  | c :: d :: cs => !(p c && p d) && noAdjacent p (d :: cs)

/-- `name_to_slug` from `app/utils/slug.py`: `None` models the `ValueError`
raised on an empty input, otherwise the four-step pipeline
remove-specials / strip+lower / collapse `[\s_]+` to `-` / collapse `-+`
and strip `-`. -/
def name_to_slug (name : String) : Option String :=
  if name = "" then none
  else
    let removed := List.filter keepChar name.toList
    let lowered := (stripChars pyWhitespace removed).map Char.toLower
    let hyphened := subRuns pWsU '-' lowered
    let collapsed := subRuns isDash '-' hyphened
    some (String.mk (stripChars isDash collapsed))

/-- `is_valid_slug` from `app/utils/slug.py`: `bool(re.match(r'^[a-z0-9-]+$',
slug))`; the `$` anchor of the Python regex also matches just before a single
trailing newline. -/
def is_valid_slug (slug : String) : Bool :=
  let l := slug.toList
  let body := if l.getLast? == some '\n' then l.dropLast else l
  !body.isEmpty && body.all slugClassChar

/-- Transfer a decidable per-character fact proved on the 128 ASCII code
points to every ASCII character. -/
theorem char_of_ascii {P : Char → Prop} [DecidablePred P]
    (h : ∀ n : Fin 128, P (Char.ofNat n.val)) {c : Char}
    (hc : c.toNat < 128) : P c := by
  have hx := h ⟨c.toNat, hc⟩
  rwa [Char.ofNat_toNat] at hx

theorem slugClassChar_ascii {c : Char} (h : slugClassChar c = true) :
    c.toNat < 128 := by
  simp only [slugClassChar, Bool.or_eq_true, Bool.and_eq_true,
    decide_eq_true_eq, beq_iff_eq] at h
  obtain h | h := h
  · obtain h | h := h <;> omega
  · subst h
    decide

theorem mem_dropWhile {p : Char → Bool} {l : List Char} {c : Char}
    (h : c ∈ l.dropWhile p) : c ∈ l :=
  (List.dropWhile_sublist p).subset h

theorem head?_dropWhile_not {p : Char → Bool} {l : List Char} {c : Char}
    (h : (l.dropWhile p).head? = some c) : p c = false := by
  induction l with
  | nil => simp at h
  | cons a as ih =>
    rw [List.dropWhile_cons] at h
    by_cases hp : p a = true
    · rw [if_pos hp] at h
      exact ih h
    · rw [if_neg hp] at h
      rw [List.head?_cons, Option.some_inj] at h
      subst h
      simpa using hp

theorem dropWhile_eq_self_of_head {p : Char → Bool} {l : List Char}
    (h : ∀ c, l.head? = some c → p c = false) : l.dropWhile p = l := by
  cases l with
  | nil => rfl
  | cons a as =>
    rw [List.dropWhile_cons, if_neg]
    simp [h a rfl]

theorem mem_rstripChars {p : Char → Bool} {l : List Char} {c : Char}
    (h : c ∈ rstripChars p l) : c ∈ l := by
  induction l with
  | nil => simpa [rstripChars] using h
  | cons a as ih =>
    simp only [rstripChars] at h
    cases hr : rstripChars p as with
    | nil =>
      rw [hr] at h
      by_cases hp : p a = true
      · simp [hp] at h
      · rw [if_neg (by simp [hp])] at h
        simp only [List.mem_singleton] at h
        simp [h]
    | cons d ds =>
      rw [hr] at h
      rcases List.mem_cons.mp h with h | h
      · simp [h]
      · exact List.mem_cons_of_mem a (ih (hr ▸ h))

theorem head?_rstripChars {p : Char → Bool} {l : List Char} {c : Char}
    (h : (rstripChars p l).head? = some c) : l.head? = some c := by
  cases l with
  | nil => simp [rstripChars] at h
  | cons a as =>
    simp only [rstripChars] at h
    cases hr : rstripChars p as with
    | nil =>
      rw [hr] at h
      by_cases hp : p a = true
      · simp [hp] at h
      · rw [if_neg (by simp [hp])] at h
        rw [List.head?_cons] at h
        simp [h]
    | cons d ds =>
      rw [hr] at h
      simp only [List.head?_cons] at h ⊢
      exact h

theorem getLast?_rstripChars_not {p : Char → Bool} {l : List Char} {c : Char}
    (h : (rstripChars p l).getLast? = some c) : p c = false := by
  induction l with
  | nil => simp [rstripChars] at h
  | cons a as ih =>
    simp only [rstripChars] at h
    cases hr : rstripChars p as with
    | nil =>
      rw [hr] at h
      by_cases hp : p a = true
      · simp [hp] at h
      · rw [if_neg (by simp [hp])] at h
        rw [List.getLast?_singleton, Option.some_inj] at h
        subst h
        simpa using hp
    | cons d ds =>
      rw [hr] at h
      rw [List.getLast?_cons_cons] at h
      exact ih (hr ▸ h)

theorem rstripChars_eq_self {p : Char → Bool} {l : List Char} {c : Char}
    (hl : l.getLast? = some c) (hc : p c = false) : rstripChars p l = l := by
  induction l with
  | nil => rfl
  | cons a as ih =>
    cases as with
    | nil =>
      rw [List.getLast?_singleton, Option.some_inj] at hl
      subst hl
      simp only [rstripChars]
      rw [if_neg (by simp [hc])]
    | cons b bs =>
      rw [List.getLast?_cons_cons] at hl
      have hr : rstripChars p (b :: bs) = b :: bs := ih hl
      simp only [rstripChars] at hr ⊢
      rw [hr]

theorem rstripChars_eq_self_all {p : Char → Bool} {l : List Char}
    (h : ∀ c ∈ l, p c = false) : rstripChars p l = l := by
  cases hl : l.getLast? with
  | none =>
    rw [List.getLast?_eq_none_iff] at hl
    subst hl
    rfl
  | some c =>
    exact rstripChars_eq_self hl (h c (List.mem_of_mem_getLast? hl))

theorem mem_stripChars {p : Char → Bool} {l : List Char} {c : Char}
    (h : c ∈ stripChars p l) : c ∈ l :=
  mem_dropWhile (mem_rstripChars h)

theorem head?_stripChars_not {p : Char → Bool} {l : List Char} {c : Char}
    (h : (stripChars p l).head? = some c) : p c = false :=
  head?_dropWhile_not (head?_rstripChars h)

theorem getLast?_stripChars_not {p : Char → Bool} {l : List Char} {c : Char}
    (h : (stripChars p l).getLast? = some c) : p c = false :=
  getLast?_rstripChars_not h

theorem stripChars_eq_self_all {p : Char → Bool} {l : List Char}
    (h : ∀ c ∈ l, p c = false) : stripChars p l = l := by
  unfold stripChars
  rw [dropWhile_eq_self_of_head, rstripChars_eq_self_all h]
  intro c hc
  have hm : c ∈ l.head? := by rw [Option.mem_def]; exact hc
  exact h c (List.mem_of_mem_head? hm)

theorem stripChars_eq_self_ends {p : Char → Bool} {l : List Char}
    (h1 : ∀ c, l.head? = some c → p c = false)
    (h2 : ∀ c, l.getLast? = some c → p c = false) : stripChars p l = l := by
  unfold stripChars
  rw [dropWhile_eq_self_of_head h1]
  cases hl : l.getLast? with
  | none =>
    rw [List.getLast?_eq_none_iff] at hl
    subst hl
    rfl
  | some c => exact rstripChars_eq_self hl (h2 c hl)

theorem mem_subRuns {p : Char → Bool} {r : Char} {l : List Char} {c : Char}
    (h : c ∈ subRuns p r l) : c = r ∨ (c ∈ l ∧ p c = false) := by
  induction l with
  | nil => simp [subRuns] at h
  | cons a as ih =>
    cases as with
    | nil =>
      by_cases hp : p a = true
      · simp [subRuns, hp] at h
        simp [h]
      · simp [subRuns, hp] at h
        subst h
        simp [hp]
    | cons b bs =>
      simp only [subRuns] at h
      by_cases hpa : p a = true
      · by_cases hpb : p b = true
        · rw [if_pos hpa, if_pos hpb] at h
          rcases ih h with h | h
          · exact Or.inl h
          · exact Or.inr ⟨List.mem_cons_of_mem a h.1, h.2⟩
        · rw [if_pos hpa, if_neg hpb] at h
          rcases List.mem_cons.mp h with h | h
          · exact Or.inl h
          · rcases ih h with h | h
            · exact Or.inl h
            · exact Or.inr ⟨List.mem_cons_of_mem a h.1, h.2⟩
      · rw [if_neg hpa] at h
        rcases List.mem_cons.mp h with h | h
        · refine Or.inr ⟨?_, ?_⟩
          · rw [h]
            exact List.mem_cons_self a _
          · rw [h]
            simpa using hpa
        · rcases ih h with h | h
          · exact Or.inl h
          · exact Or.inr ⟨List.mem_cons_of_mem a h.1, h.2⟩

theorem subRuns_eq_self {p : Char → Bool} {r : Char} {l : List Char}
    (h : ∀ c ∈ l, p c = false) : subRuns p r l = l := by
  induction l with
  | nil => rfl
  | cons a as ih =>
    have hpa : p a = false := h a (List.mem_cons_self a as)
    cases as with
    | nil => simp [subRuns, hpa]
    | cons b bs =>
      simp only [subRuns]
      rw [if_neg (by simp [hpa])]
      rw [ih (fun c hc => h c (List.mem_cons_of_mem a hc))]

theorem head?_subRuns {p : Char → Bool} {r d : Char} {cs : List Char}
    (hd : p d = false) : (subRuns p r (d :: cs)).head? = some d := by
  cases cs with
  | nil => simp [subRuns, hd]
  | cons e es =>
    simp only [subRuns]
    rw [if_neg (by simp [hd])]
    rfl

theorem noAdjacent_tail {q : Char → Bool} {c : Char} {l : List Char}
    (h : noAdjacent q (c :: l) = true) : noAdjacent q l = true := by
  cases l with
  | nil => rfl
  | cons d ds =>
    simp only [noAdjacent, Bool.and_eq_true] at h
    exact h.2

theorem noAdjacent_cons_of_not {q : Char → Bool} {c : Char} {l : List Char}
    (hc : q c = false) (h : noAdjacent q l = true) :
    noAdjacent q (c :: l) = true := by
  cases l with
  | nil => rfl
  | cons d ds =>
    simp only [noAdjacent, Bool.and_eq_true]
    exact ⟨by simp [hc], h⟩

theorem noAdjacent_subRuns_dash (l : List Char) :
    noAdjacent isDash (subRuns isDash '-' l) = true := by
  induction l with
  | nil => rfl
  | cons a as ih =>
    cases as with
    | nil =>
      by_cases hp : isDash a = true
      · simp [subRuns, hp, noAdjacent]
      · simp [subRuns, hp, noAdjacent]
    | cons b bs =>
      simp only [subRuns]
      by_cases hpa : isDash a = true
      · by_cases hpb : isDash b = true
        · rw [if_pos hpa, if_pos hpb]
          exact ih
        · rw [if_pos hpa, if_neg hpb]
          have hh : (subRuns isDash '-' (b :: bs)).head? = some b :=
            head?_subRuns (by simpa using hpb)
          cases hs : subRuns isDash '-' (b :: bs) with
          | nil => rfl
          | cons e es =>
            rw [hs] at hh
            rw [List.head?_cons, Option.some_inj] at hh
            subst hh
            simp only [noAdjacent, Bool.and_eq_true]
            refine ⟨by simp [hpb], ?_⟩
            rw [← hs]
            exact ih
      · rw [if_neg hpa]
        exact noAdjacent_cons_of_not (by simpa using hpa) ih

theorem subRuns_dash_eq_self {l : List Char}
    (h : noAdjacent isDash l = true) : subRuns isDash '-' l = l := by
  induction l with
  | nil => rfl
  | cons a as ih =>
    cases as with
    | nil =>
      by_cases hp : isDash a = true
      · have : a = '-' := by simpa [isDash] using hp
        simp [subRuns, hp, this]
      · simp [subRuns, hp]
    | cons b bs =>
      simp only [subRuns]
      by_cases hpa : isDash a = true
      · have hab : isDash a = false ∨ isDash b = false := by
          simp only [noAdjacent, Bool.and_eq_true] at h
          simpa using h.1
        have hpb : isDash b = false := by
          rcases hab with hab | hab
          · rw [hpa] at hab
            cases hab
          · exact hab
        rw [if_pos hpa, if_neg (by simp [hpb])]
        have ha : a = '-' := by simpa [isDash] using hpa
        rw [ih (noAdjacent_tail h), ha]
      · rw [if_neg hpa]
        rw [ih (noAdjacent_tail h)]

theorem noAdjacent_dropWhile {q p : Char → Bool} {l : List Char}
    (h : noAdjacent q l = true) : noAdjacent q (l.dropWhile p) = true := by
  induction l with
  | nil => rfl
  | cons a as ih =>
    rw [List.dropWhile_cons]
    by_cases hp : p a = true
    · rw [if_pos hp]
      exact ih (noAdjacent_tail h)
    · rw [if_neg hp]
      exact h

theorem noAdjacent_rstripChars {q p : Char → Bool} {l : List Char}
    (h : noAdjacent q l = true) : noAdjacent q (rstripChars p l) = true := by
  induction l with
  | nil => rfl
  | cons a as ih =>
    simp only [rstripChars]
    cases hr : rstripChars p as with
    | nil =>
      by_cases hp : p a = true
      · simp [hp, noAdjacent]
      · rw [if_neg (by simp [hp])]
        rfl
    | cons d ds =>
      have htl : noAdjacent q (d :: ds) = true := by
        rw [← hr]
        exact ih (noAdjacent_tail h)
      have hd : as.head? = some d := head?_rstripChars (by rw [hr]; rfl)
      have hab : (q a && q d) = false := by
        cases as with
        | nil => simp at hd
        | cons b bs =>
          rw [List.head?_cons, Option.some_inj] at hd
          rw [← hd]
          simp only [noAdjacent, Bool.and_eq_true] at h
          rcases (by simpa using h.1 : q a = false ∨ q b = false) with h2 | h2 <;>
            simp [h2]
      simp only [noAdjacent, Bool.and_eq_true]
      exact ⟨by simp [hab], htl⟩

theorem noAdjacent_stripChars {q p : Char → Bool} {l : List Char}
    (h : noAdjacent q l = true) : noAdjacent q (stripChars p l) = true :=
  noAdjacent_rstripChars (noAdjacent_dropWhile h)

theorem keepChar_toLower_slugClass {c : Char} (hc : c.toNat < 128)
    (h1 : keepChar c = true) (h2 : pWsU c.toLower = false)
    (h3 : isDash c.toLower = false) : slugClassChar c.toLower = true := by
  revert h1 h2 h3
  exact char_of_ascii
    (P := fun c => keepChar c = true → pWsU c.toLower = false →
      isDash c.toLower = false → slugClassChar c.toLower = true)
    (by decide) hc

theorem slugClass_fix {c : Char} (h : slugClassChar c = true) :
    keepChar c = true ∧ pyWhitespace c = false ∧ pWsU c = false ∧
      Char.toLower c = c := by
  have hc := slugClassChar_ascii h
  revert h
  exact char_of_ascii
    (P := fun c => slugClassChar c = true → keepChar c = true ∧
      pyWhitespace c = false ∧ pWsU c = false ∧ Char.toLower c = c)
    (by decide) hc

/-- On ASCII input, every successful output of `name_to_slug` consists of
`[a-z0-9-]` characters with no run of hyphens and no hyphen at either
end. -/
theorem name_to_slug_good {x s : String}
    (hascii : ∀ c ∈ x.toList, c.toNat < 128)
    (h : name_to_slug x = some s) :
    (∀ c ∈ s.toList, slugClassChar c = true) ∧
    noAdjacent isDash s.toList = true ∧
    (∀ c, s.toList.head? = some c → isDash c = false) ∧
    (∀ c, s.toList.getLast? = some c → isDash c = false) := by
  by_cases hx : x = ""
  · simp [name_to_slug, hx] at h
  · simp only [name_to_slug, if_neg hx, Option.some_inj] at h
    have hdata : s.toList = stripChars isDash (subRuns isDash '-'
        (subRuns pWsU '-'
          ((stripChars pyWhitespace (List.filter keepChar x.toList)).map
            Char.toLower))) := by
      rw [← h]
      rfl
    refine ⟨?_, ?_, ?_, ?_⟩
    · intro c hcmem
      rw [hdata] at hcmem
      have hc3 := mem_stripChars hcmem
      rcases mem_subRuns hc3 with hc4 | ⟨hc4, hdash⟩
      · subst hc4
        decide
      · rcases mem_subRuns hc4 with hc5 | ⟨hc5, hwsu⟩
        · subst hc5
          simp [isDash] at hdash
        · rcases List.mem_map.mp hc5 with ⟨c0, hc0, hlow⟩
          have hc0x := List.mem_filter.mp (mem_stripChars hc0)
          subst hlow
          exact keepChar_toLower_slugClass (hascii c0 hc0x.1) hc0x.2 hwsu hdash
    · rw [hdata]
      exact noAdjacent_stripChars (noAdjacent_subRuns_dash _)
    · intro c hc
      rw [hdata] at hc
      exact head?_stripChars_not hc
    · intro c hc
      rw [hdata] at hc
      exact getLast?_stripChars_not hc

/-- A nonempty string of `[a-z0-9-]` characters with no hyphen run and no
hyphen at either end is a valid slug and a fixed point of
`name_to_slug`. -/
theorem good_slug_fixed {s : String} (hne : s ≠ "")
    (h1 : ∀ c ∈ s.toList, slugClassChar c = true)
    (h2 : noAdjacent isDash s.toList = true)
    (h3 : ∀ c, s.toList.head? = some c → isDash c = false)
    (h4 : ∀ c, s.toList.getLast? = some c → isDash c = false) :
    is_valid_slug s = true ∧ name_to_slug s = some s := by
  have hnil : s.toList ≠ [] := by
    intro hcon
    apply hne
    have : String.mk s.toList = String.mk [] := by rw [hcon]
    cases s
    exact this
  constructor
  · simp only [is_valid_slug]
    have hlast : (s.toList.getLast? == some '\n') = false := by
      cases hl : s.toList.getLast? with
      | none => rfl
      | some c =>
        have hcs := h1 c (List.mem_of_mem_getLast? hl)
        have : c ≠ '\n' := by
          intro hcon
          subst hcon
          simp [slugClassChar] at hcs
        simpa using this
    rw [hlast]
    simp only [Bool.false_eq_true, if_false, Bool.and_eq_true,
      List.all_eq_true]
    refine ⟨?_, h1⟩
    simp only [Bool.not_eq_true', List.isEmpty_eq_false]
    exact hnil
  · unfold name_to_slug
    rw [if_neg hne]
    have e1 : List.filter keepChar s.toList = s.toList :=
      List.filter_eq_self.mpr (fun c hc => (slugClass_fix (h1 c hc)).1)
    have e2 : stripChars pyWhitespace s.toList = s.toList :=
      stripChars_eq_self_all (fun c hc => (slugClass_fix (h1 c hc)).2.1)
    have e3 : s.toList.map Char.toLower = s.toList := by
      have hcongr := List.map_congr_left
        (fun c hc => (slugClass_fix (h1 c hc)).2.2.2 : ∀ c ∈ s.toList,
          Char.toLower c = (fun a => a) c)
      rw [hcongr, List.map_id']
    have e4 : subRuns pWsU '-' s.toList = s.toList :=
      subRuns_eq_self (fun c hc => (slugClass_fix (h1 c hc)).2.2.1)
    have e5 : subRuns isDash '-' s.toList = s.toList := subRuns_dash_eq_self h2
    have e6 : stripChars isDash s.toList = s.toList :=
      stripChars_eq_self_ends h3 h4
    simp only [e1, e2, e3, e4, e5, e6]
    cases s
    rfl

/-- C8 counterexample: for the non-empty input `"!"`, `name_to_slug`
returns the empty string, which `is_valid_slug` rejects, and re-applying
`name_to_slug` to that output raises (modelled `none`) instead of
returning the same value. -/
theorem c8_slug_counterexample :
    name_to_slug "!" = some "" ∧ is_valid_slug "" = false ∧
    Option.bind (name_to_slug "!") name_to_slug = none := by
  decide

/-- C8 (amended): for every ASCII string `x` on which `name_to_slug`
succeeds with a non-empty result `s` (the counterexample `"!"` shows the
result can be empty and is then not a valid slug), `s` is a valid slug and
`name_to_slug` is idempotent at `x`, i.e. `name_to_slug s = some s`. -/
theorem c8_slug_amended (x : String)
    (hascii : ∀ c ∈ x.toList, c.toNat < 128) (s : String)
    (hs : name_to_slug x = some s) (hne : s ≠ "") :
    is_valid_slug s = true ∧ name_to_slug s = some s := by
  obtain ⟨h1, h2, h3, h4⟩ := name_to_slug_good hascii hs
  exact good_slug_fixed hne h1 h2 h3 h4

/-- C8 witness: the amended theorem applied to the concrete input
`"My Research Lab!"`. -/
theorem c8_slug_amended_witness :
    is_valid_slug "my-research-lab" = true ∧
    name_to_slug "my-research-lab" = some "my-research-lab" :=
  c8_slug_amended "My Research Lab!" (by decide) "my-research-lab"
    (by decide) (by decide)

/-! Password hashing wrappers from `app/core/security.py`. -/

/-- Modelled from the spec: the third-party bcrypt primitive behind
`pwd_context.hash` is an external dependency, not repository code; per the
spec it is a one-way adaptive hash with verify-by-recompute, modelled here
as an idealized collision-free encoding of the password. -/
def pwd_context_hash (password : String) : String :=
  "$bcrypt-model$" ++ password

/-- Modelled from the spec: `pwd_context.verify` recomputes the hash of the
candidate password and compares it with the stored hash. -/
def pwd_context_verify (plain : String) (hashed : String) : Bool :=
  hashed == pwd_context_hash plain

/-- `verify_password` from `app/core/security.py`: empty inputs (and any
internal failure) yield `False` instead of raising. -/
def verify_password (plain_password : String) (hashed_password : String) :
    Bool :=
  if plain_password = "" || hashed_password = "" then false
  else pwd_context_verify plain_password hashed_password

/-- The full character set of Python `str.isspace()`, which is also what
`str.strip()` removes: the ASCII whitespace and separator control
characters 0x09-0x0D, 0x1C-0x1F and 0x20, plus the next line, no-break
space, Ogham space mark, the U+2000-200A spaces, line and paragraph
separators, narrow no-break space, medium mathematical space and
ideographic space. -/
def pyIsSpace (c : Char) : Bool :=
  (9 ≤ c.toNat && c.toNat ≤ 13) || (28 ≤ c.toNat && c.toNat ≤ 32) ||
  c.toNat == 0x85 || c.toNat == 0xa0 || c.toNat == 0x1680 ||
  (0x2000 ≤ c.toNat && c.toNat ≤ 0x200a) || c.toNat == 0x2028 ||
  c.toNat == 0x2029 || c.toNat == 0x202f || c.toNat == 0x205f ||
  c.toNat == 0x3000

/-- `get_password_hash` from `app/core/security.py`: raises `ValueError`
(modelled `Except.error`) on an empty or whitespace-only password (the
`len(password.strip()) == 0` check, with `str.strip()` removing the full
`pyIsSpace` set). -/
def get_password_hash (password : String) : Except String String :=
  if password = "" then .error "Password must be a non-empty string"
  else if stripChars pyIsSpace password.toList = [] then
    .error "Password cannot be empty or whitespace only"
  else .ok (pwd_context_hash password)

/-- C7 counterexample: the single-space password is a non-empty string, yet
`get_password_hash` rejects it (whitespace-only guard), so the claimed
round trip does not even produce a hash for every non-empty password. -/
theorem c7_password_counterexample :
    (" " : String) ≠ "" ∧
    get_password_hash " " = .error "Password cannot be empty or whitespace only" := by
  constructor
  · decide
  · rfl

/-- C7 (amended): for every password that is non-empty and not
whitespace-only in the sense of Python `str.strip()`, hashing succeeds,
verifying the same password against the produced hash returns true, and
verifying the password with `"x"` appended returns false. -/
theorem c7_password_roundtrip (p : String)
    (hne : p ≠ "") (hws : stripChars pyIsSpace p.toList ≠ []) :
    ∃ h, get_password_hash p = .ok h ∧
      verify_password p h = true ∧
      verify_password (p ++ "x") h = false := by
  refine ⟨pwd_context_hash p, ?_, ?_, ?_⟩
  · unfold get_password_hash
    rw [if_neg hne, if_neg hws]
  · unfold verify_password
    rw [if_neg]
    · simp [pwd_context_verify]
    · simp only [Bool.or_eq_true, decide_eq_true_eq]
      rintro (h | h)
      · exact hne h
      · have hl : ("$bcrypt-model$" ++ p).length = 14 + p.length := by
          rw [String.length_append]
          rfl
        apply absurd (congrArg String.length h)
        simp [pwd_context_hash, hl]
  · unfold verify_password
    rw [if_neg]
    · simp only [pwd_context_verify, pwd_context_hash]
      have hlen : ("$bcrypt-model$" ++ p).length ≠
          ("$bcrypt-model$" ++ (p ++ "x")).length := by
        simp only [String.length_append]
        have hx : ("x" : String).length = 1 := rfl
        omega
      simp only [beq_eq_false_iff_ne, ne_eq]
      intro hcon
      exact hlen (by rw [hcon])
    · simp only [Bool.or_eq_true, decide_eq_true_eq]
      rintro (h | h)
      · have hl : (p ++ "x").length = p.length + 1 := by
          rw [String.length_append]
          rfl
        apply absurd (congrArg String.length h)
        simp [hl]
      · have hl : ("$bcrypt-model$" ++ p).length = 14 + p.length := by
          rw [String.length_append]
          rfl
        apply absurd (congrArg String.length h)
        simp [pwd_context_hash, hl]

/-- C7 witness: the amended round trip at the concrete password
`"Aa123456"`. -/
theorem c7_password_roundtrip_witness :
    ∃ h, get_password_hash "Aa123456" = .ok h ∧
      verify_password "Aa123456" h = true ∧
      verify_password ("Aa123456" ++ "x") h = false :=
  c7_password_roundtrip "Aa123456" (by decide) (by decide)

/-! Session-bound token refresh.  The class `AuthService` referenced by
`app/routers/auth.py` and `app/dependencies.py` is not present in the
source tree (only its callers and the `UserSession` model are), so the
refresh operation is modelled from the spec. -/

/-- Token kind discriminator carried in every signed token payload. -/
inductive TokenType where
  | access
  | refresh
deriving DecidableEq

/-- Modelled from the spec: a decoded signed token.  `jti` is the issuance
counter that makes each minted token distinct; signature validity is
implicit (only tokens the system minted are representable). -/
structure AuthToken where
  typ : TokenType
  userId : Nat
  sessionId : Nat
  jti : Nat
deriving DecidableEq

/-- Modelled from the spec: the stored token digest.  `UserSession` rows
hold hashes of tokens, never raw tokens; the hash is idealized as an
injective encoding. -/
def hashToken (t : AuthToken) : AuthToken :=
  t

/-- A `user_sessions` row (`app/models/user_session.py`), restricted to the
fields the refresh operation reads and writes. -/
structure SessionRow where
  sid : Nat
  userId : Nat
  refreshTokenHash : Option AuthToken
  expiresAt : Nat
  isActive : Bool
deriving DecidableEq

/-- State of the session store plus the mint counter for fresh `jti`
values. -/
structure AuthState where
  sessions : List SessionRow
  nextJti : Nat
deriving DecidableEq

/-- Store a new refresh-token hash on the session row with the given id
(the rotation write of the refresh operation). -/
def rotateSession (newHash : AuthToken) (sid : Nat) (r : SessionRow) :
    SessionRow :=
  if r.sid == sid then { r with refreshTokenHash := some newHash } else r

/-- Modelled from the spec: `AuthService.refresh_token` verifies the
refresh token type, re-validates that its bound session is still active
and unexpired, re-verifies that the presented token hash matches the
session's stored hash, mints a new access/refresh pair, and rotates the
stored hash to the new refresh token's hash. -/
def refresh_token (st : AuthState) (tok : AuthToken) (now : Nat) :
    Option (AuthToken × AuthToken × AuthState) :=
  if tok.typ ≠ .refresh then none
  else
    match st.sessions.find? (fun s => s.sid == tok.sessionId) with
    | none => none
    | some s =>
      if ¬ s.isActive then none
      else if s.expiresAt ≤ now then none
      else if s.refreshTokenHash ≠ some (hashToken tok) then none
      else
        let newAccess : AuthToken := ⟨.access, s.userId, s.sid, st.nextJti⟩
        let newRefresh : AuthToken :=
          ⟨.refresh, s.userId, s.sid, st.nextJti + 1⟩
        some (newAccess, newRefresh,
          ⟨st.sessions.map (rotateSession (hashToken newRefresh) s.sid),
            st.nextJti + 2⟩)

theorem find?_map_key {f : SessionRow → SessionRow} {l : List SessionRow}
    {k : Nat} (hf : ∀ r, (f r).sid = r.sid) :
    (l.map f).find? (fun s => s.sid == k) =
      (l.find? (fun s => s.sid == k)).map f := by
  induction l with
  | nil => rfl
  | cons a as ih =>
    simp only [List.map_cons, List.find?_cons]
    by_cases hk : a.sid = k
    · have h1 : ((f a).sid == k) = true := by simp [hf, hk]
      have h2 : (a.sid == k) = true := by simp [hk]
      rw [h1, h2]
      rfl
    · have h1 : ((f a).sid == k) = false := by simp [hf, hk]
      have h2 : (a.sid == k) = false := by simp [hk]
      rw [h1, h2]
      exact ih

/-- C1: refresh rotation.  For a well-formed state (every stored token was
minted before the current counter), a successful refresh with a valid
refresh token leaves the session storing the hash of the newly issued
refresh token, which differs from the presented token's hash; replaying
the presented token against the new state fails. -/
theorem c1_refresh_rotation (st : AuthState) (tok : AuthToken)
    (s : SessionRow) (now : Nat)
    (htyp : tok.typ = .refresh)
    (hfind : st.sessions.find? (fun r => r.sid == tok.sessionId) = some s)
    (hact : s.isActive = true)
    (hexp : now < s.expiresAt)
    (hmatch : s.refreshTokenHash = some (hashToken tok))
    (hjti : tok.jti < st.nextJti) :
    ∃ newAccess newRefresh st',
      refresh_token st tok now = some (newAccess, newRefresh, st') ∧
      (∀ s', st'.sessions.find? (fun r => r.sid == tok.sessionId) = some s' →
        s'.refreshTokenHash = some (hashToken newRefresh) ∧
        s'.refreshTokenHash ≠ some (hashToken tok)) ∧
      refresh_token st' tok now = none := by
  have hnew : refresh_token st tok now =
      some (⟨.access, s.userId, s.sid, st.nextJti⟩,
        ⟨.refresh, s.userId, s.sid, st.nextJti + 1⟩,
        ⟨st.sessions.map (rotateSession
            (hashToken ⟨.refresh, s.userId, s.sid, st.nextJti + 1⟩) s.sid),
          st.nextJti + 2⟩) := by
    unfold refresh_token
    rw [if_neg (by simp [htyp]), hfind]
    dsimp only
    rw [if_neg (by simp [hact]), if_neg (by omega), if_neg (by simp [hmatch])]
  have hsidkey : ∀ r, (rotateSession
      (hashToken ⟨.refresh, s.userId, s.sid, st.nextJti + 1⟩) s.sid r).sid =
        r.sid := by
    intro r
    unfold rotateSession
    split <;> rfl
  have hrot : rotateSession
      (hashToken ⟨.refresh, s.userId, s.sid, st.nextJti + 1⟩) s.sid s =
      { s with refreshTokenHash := some (hashToken ⟨.refresh, s.userId, s.sid, st.nextJti + 1⟩) } := by
    unfold rotateSession
    rw [if_pos (by simp)]
  have hmap : (st.sessions.map (rotateSession
      (hashToken ⟨.refresh, s.userId, s.sid, st.nextJti + 1⟩) s.sid)).find?
        (fun r => r.sid == tok.sessionId) =
      some ({ s with refreshTokenHash := some (hashToken ⟨.refresh, s.userId, s.sid, st.nextJti + 1⟩) }) := by
    rw [find?_map_key hsidkey, hfind, Option.map_some', hrot]
  refine ⟨_, _, _, hnew, ?_, ?_⟩
  · intro s' hfind'
    rw [hmap] at hfind'
    have hs' : s' = { s with refreshTokenHash := some (hashToken ⟨.refresh, s.userId, s.sid, st.nextJti + 1⟩) } :=
      (Option.some_inj.mp hfind').symm
    subst hs'
    constructor
    · rfl
    · simp only [hashToken, ne_eq, Option.some_inj]
      intro hcon
      have hj : st.nextJti + 1 = tok.jti := congrArg AuthToken.jti hcon
      omega
  · unfold refresh_token
    rw [if_neg (by simp [htyp])]
    dsimp only
    rw [hmap]
    dsimp only
    rw [if_neg (by simp [hact]), if_neg (by omega), if_pos]
    simp only [hashToken, ne_eq, Option.some_inj]
    intro hcon
    have hj : st.nextJti + 1 = tok.jti := congrArg AuthToken.jti hcon
    omega

/-- C1 witness: a concrete one-session state refreshed with its valid
refresh token. -/
theorem c1_refresh_rotation_witness :
    ∃ newAccess newRefresh st',
      refresh_token
        ⟨[⟨7, 3, some (hashToken ⟨.refresh, 3, 7, 0⟩), 100, true⟩], 1⟩
        ⟨.refresh, 3, 7, 0⟩ 50 = some (newAccess, newRefresh, st') ∧
      (∀ s', st'.sessions.find? (fun r => r.sid == 7) = some s' →
        s'.refreshTokenHash = some (hashToken newRefresh) ∧
        s'.refreshTokenHash ≠ some (hashToken ⟨.refresh, 3, 7, 0⟩)) ∧
      refresh_token st' ⟨.refresh, 3, 7, 0⟩ 50 = none :=
  c1_refresh_rotation
    ⟨[⟨7, 3, some (hashToken ⟨.refresh, 3, 7, 0⟩), 100, true⟩], 1⟩
    ⟨.refresh, 3, 7, 0⟩
    ⟨7, 3, some (hashToken ⟨.refresh, 3, 7, 0⟩), 100, true⟩ 50
    rfl (by decide) rfl (by decide) rfl (by decide)

/-! Relational state shared by the database-backed services, restricted to
the tables and columns those services read or write. -/

/-- A `labs` row (`app/models/lab.py`). -/
structure LabRow where
  id : Nat
  ownerId : Nat
  deletedAt : Option Nat
  activeSchemaId : Option Nat
  activeConnectionId : Option Nat
  updatedAt : Nat
deriving DecidableEq

/-- A `lab_members` row (`app/models/lab_member.py`), including the four
per-membership grant flags the member service reads and writes. -/
structure MemberRow where
  labId : Nat
  userId : Nat
  role : Role
  canManageMembers : Bool
  canEditSchema : Bool
  canRunJobs : Bool
  canDeleteData : Bool
  leftAt : Option Nat
deriving DecidableEq

/-- A `kg_schemas` row (`app/models/kg_schema.py`). -/
structure SchemaRow where
  id : Nat
  labId : Nat
  isActive : Bool
deriving DecidableEq

/-- A `neo4j_connections` row (`app/models/neo4j_connection.py`); `nspace`
renders the `namespace` column. -/
structure ConnRow where
  id : Nat
  labId : Nat
  connectionName : String
  uri : String
  databaseName : String
  username : String
  secretId : String
  nspace : String
  schemaId : Nat
  isActive : Bool
deriving DecidableEq

/-- A `processing_jobs` row (`app/models/processing_job.py`). -/
structure JobRow where
  labId : Nat
  jobType : String
  status : String
deriving DecidableEq

/-- A `brainstorm_sessions` row (`app/models/brainstorm_session.py`). -/
structure BSessionRow where
  id : Nat
  labId : Nat
  deletedAt : Option Nat
deriving DecidableEq

/-- A `research_keywords` row (`app/models/research_keyword.py`). -/
structure KeywordRow where
  id : Nat
  sessionId : Nat
deriving DecidableEq

/-- The relational store. -/
structure DB where
  labs : List LabRow
  members : List MemberRow
  schemas : List SchemaRow
  connections : List ConnRow
  jobs : List JobRow
  brainstormSessions : List BSessionRow
  keywords : List KeywordRow
deriving DecidableEq

/-- `KgSchemaService._get_user_role_in_lab`
(`app/services/kg_schema.py`): lab looked up by id alone, owner shadows
any membership row, membership restricted to rows with `left_at` null. -/
def kg_get_user_role_in_lab (db : DB) (userId labId : Nat) :
    Except ServiceError Role :=
  match db.labs.find? (fun l => l.id == labId) with
  | none => .error (.notFoundError "Lab not found")
  | some lab =>
    if lab.ownerId == userId then .ok .owner
    else
      match db.members.find? (fun m =>
          m.labId == labId && m.userId == userId && m.leftAt == none) with
      | some m => .ok m.role
      | none => .error (.authorizationError "User is not a member of this lab")

/-- `Neo4jConnectionService._get_user_role_in_lab`
(`app/services/neo4j_connection.py`); textually identical logic to the
schema service's resolver. -/
def nc_get_user_role_in_lab (db : DB) (userId labId : Nat) :
    Except ServiceError Role :=
  match db.labs.find? (fun l => l.id == labId) with
  | none => .error (.notFoundError "Lab not found")
  | some lab =>
    if lab.ownerId == userId then .ok .owner
    else
      match db.members.find? (fun m =>
          m.labId == labId && m.userId == userId && m.leftAt == none) with
      | some m => .ok m.role
      | none => .error (.authorizationError "User is not a member of this lab")

/-- `ResearchKeywordService._get_user_lab_role`
(`app/services/research_keyword.py`): lab lookup excludes soft-deleted
labs, returns `None` instead of raising, membership lookup has no
`left_at` filter. -/
def rk_get_user_lab_role (db : DB) (userId labId : Nat) : Option Role :=
  match db.labs.find? (fun l => l.id == labId && l.deletedAt == none) with
  | none => none
  | some lab =>
    if lab.ownerId == userId then some .owner
    else
      match db.members.find? (fun m =>
          m.labId == labId && m.userId == userId) with
      | some m => some m.role
      | none => none

theorem find?_of_stronger {α : Type} {p q : α → Bool} {l : List α} {a : α}
    (h : l.find? q = some a) (hpa : p a = true)
    (himp : ∀ x, p x = true → q x = true) : l.find? p = some a := by
  induction l with
  | nil => simp at h
  | cons x xs ih =>
    rw [List.find?_cons] at h ⊢
    by_cases hq : q x = true
    · rw [hq] at h
      have hax : x = a := by simpa using h
      subst hax
      rw [hpa]
    · have hq2 : q x = false := by simpa using hq
      rw [hq2] at h
      have hp2 : p x = false := by
        rcases Bool.eq_false_or_eq_true (p x) with ht | hf
        · exact absurd (himp x ht) (by simp [hq2])
        · exact hf
      rw [hp2]
      exact ih h

/-- C9: owner shadowing.  A user whose id equals the lab's `owner_id`
resolves to the `owner` role in every role resolver, regardless of what
membership rows exist for them. -/
theorem c9_owner_shadowing (db : DB) (lab : LabRow) (userId : Nat)
    (hfind : db.labs.find? (fun l => l.id == lab.id) = some lab)
    (hdel : lab.deletedAt = none)
    (hown : lab.ownerId = userId) :
    kg_get_user_role_in_lab db userId lab.id = .ok .owner ∧
    nc_get_user_role_in_lab db userId lab.id = .ok .owner ∧
    rk_get_user_lab_role db userId lab.id = some .owner := by
  have hfind2 : db.labs.find? (fun l => l.id == lab.id && l.deletedAt == none)
      = some lab := by
    refine find?_of_stronger hfind (by simp [hdel]) ?_
    intro x hx
    simp only [Bool.and_eq_true] at hx
    exact hx.1
  refine ⟨?_, ?_, ?_⟩
  · unfold kg_get_user_role_in_lab
    rw [hfind]
    simp [hown]
  · unfold nc_get_user_role_in_lab
    rw [hfind]
    simp [hown]
  · unfold rk_get_user_lab_role
    rw [hfind2]
    simp [hown]

/-- C9 witness: the lab owner resolves to `owner` even though a membership
row carrying the `viewer` role exists for them. -/
theorem c9_owner_shadowing_witness :
    kg_get_user_role_in_lab
      ⟨[⟨1, 10, none, none, none, 0⟩],
        [⟨1, 10, .viewer, false, false, false, false, none⟩], [], [], [], [],
        []⟩ 10 1 = .ok .owner ∧
    nc_get_user_role_in_lab
      ⟨[⟨1, 10, none, none, none, 0⟩],
        [⟨1, 10, .viewer, false, false, false, false, none⟩], [], [], [], [],
        []⟩ 10 1 = .ok .owner ∧
    rk_get_user_lab_role
      ⟨[⟨1, 10, none, none, none, 0⟩],
        [⟨1, 10, .viewer, false, false, false, false, none⟩], [], [], [], [],
        []⟩ 10 1 = some .owner :=
  c9_owner_shadowing
    ⟨[⟨1, 10, none, none, none, 0⟩],
      [⟨1, 10, .viewer, false, false, false, false, none⟩], [], [], [], [],
      []⟩
    ⟨1, 10, none, none, none, 0⟩ 10 rfl rfl rfl

/-! `LabMemberService` (`app/services/lab_member.py`). -/

/-- Payload of a member update (`LabMemberUpdate` in
`app/schemas/lab_member.py`); `none` models an omitted field. -/
structure LabMemberUpdate where
  role : Option Role
  canManageMembers : Option Bool
  canEditSchema : Option Bool
  canRunJobs : Option Bool
  canDeleteData : Option Bool
deriving DecidableEq

/-- `LabMemberService._user_can_manage_members`: lab owner, or an admin
member holding the `can_manage_members` grant. -/
def user_can_manage_members (db : DB) (userId labId : Nat) : Bool :=
  match db.labs.find? (fun l => l.id == labId && l.deletedAt == none) with
  | none => false
  | some lab =>
    lab.ownerId == userId ||
      (db.members.find? (fun m => m.labId == labId && m.userId == userId &&
        m.role == Role.admin && m.canManageMembers)).isSome

/-- Number of `admin`-role membership rows of the lab (the `admin_count`
query of the member service). -/
def admin_count (db : DB) (labId : Nat) : Nat :=
  (db.members.filter (fun m => m.labId == labId && m.role == Role.admin)).length

/-- `LabMemberService.update_member`: permission gate, member lookup,
last-admin guard when the role is being changed away from `admin`, then
field-wise update. -/
def update_member (db : DB) (currentUserId labId userId : Nat)
    (req : LabMemberUpdate) : Except ServiceError (DB × MemberRow) :=
  if ¬ user_can_manage_members db currentUserId labId then
    .error (.authorizationError "Insufficient permissions to manage members")
  else
    match db.members.find? (fun m => m.labId == labId && m.userId == userId) with
    | none => .error (.notFoundError "Member not found")
    | some member =>
      let lastAdminBlocked :=
        match req.role with
        | some r =>
          if r ≠ Role.admin then
            decide (admin_count db labId ≤ 1) && member.role == Role.admin
          else false
        | none => false
      if lastAdminBlocked then
        .error (.conflictError "Cannot remove the last admin from the lab")
      else
        let member2 : MemberRow :=
          { member with
            role := req.role.getD member.role,
            canManageMembers := req.canManageMembers.getD member.canManageMembers,
            canEditSchema := req.canEditSchema.getD member.canEditSchema,
            canRunJobs := req.canRunJobs.getD member.canRunJobs,
            canDeleteData := req.canDeleteData.getD member.canDeleteData }
        .ok ({ db with members := db.members.map (fun m =>
            if m.labId == labId && m.userId == userId then member2 else m) },
          member2)

/-- `LabMemberService.remove_member`: permission gate, member lookup,
last-admin guard when the member being removed is an admin, then row
deletion. -/
def remove_member (db : DB) (currentUserId labId userId : Nat) :
    Except ServiceError DB :=
  if ¬ user_can_manage_members db currentUserId labId then
    .error (.authorizationError "Insufficient permissions to manage members")
  else
    match db.members.find? (fun m => m.labId == labId && m.userId == userId) with
    | none => .error (.notFoundError "Member not found")
    | some member =>
      if member.role == Role.admin && decide (admin_count db labId ≤ 1) then
        .error (.conflictError "Cannot remove the last admin from the lab")
      else
        .ok { db with members := db.members.filter (fun m =>
          !(m.labId == labId && m.userId == userId)) }

/-- Number of membership rows of the lab whose role carries administrative
capability in the sense of `LabPermissions.is_admin_role`. -/
def admin_capable_count (db : DB) (labId : Nat) : Nat :=
  (db.members.filter (fun m => m.labId == labId && is_admin_role m.role)).length

/-- Membership rows reachable through the service layer carry only the
roles accepted by the API pattern `^(admin|editor|viewer)$`. -/
def service_reachable_roles (db : DB) : Prop :=
  ∀ m ∈ db.members, m.role = .admin ∨ m.role = .editor ∨ m.role = .viewer

/-- C3: last-admin protection.  In a service-reachable state, with an
authorized caller and an admin-capable target member: if the lab has
exactly one admin-capable member, demoting that member to a
non-administrative role and removing them both fail with `ConflictError`;
with two admin-capable members, both operations succeed. -/
theorem c3_last_admin_protection (db : DB) (labId callerId targetId : Nat)
    (m : MemberRow)
    (hroles : service_reachable_roles db)
    (hauth : user_can_manage_members db callerId labId = true)
    (hfind : db.members.find? (fun mm => mm.labId == labId &&
      mm.userId == targetId) = some m)
    (hcap : is_admin_role m.role = true) :
    ((admin_capable_count db labId = 1) →
      (∀ r, is_admin_role r = false → ∀ upd : LabMemberUpdate,
        upd.role = some r →
        update_member db callerId labId targetId upd =
          .error (.conflictError "Cannot remove the last admin from the lab")) ∧
      remove_member db callerId labId targetId =
        .error (.conflictError "Cannot remove the last admin from the lab")) ∧
    ((admin_capable_count db labId = 2) →
      (∀ r, is_admin_role r = false → ∀ upd : LabMemberUpdate,
        upd.role = some r →
        ∃ db2 m2, update_member db callerId labId targetId upd = .ok (db2, m2)) ∧
      ∃ db2, remove_member db callerId labId targetId = .ok db2) := by
  have hmrole : m.role = .admin := by
    have hm := List.mem_of_find?_eq_some hfind
    rcases hroles m hm with h | h | h
    · exact h
    · rw [h] at hcap
      simp [is_admin_role] at hcap
    · rw [h] at hcap
      simp [is_admin_role] at hcap
  have hcounts : admin_capable_count db labId = admin_count db labId := by
    unfold admin_capable_count admin_count
    rw [List.filter_congr]
    intro mm hmm
    rcases hroles mm hmm with h | h | h <;> rw [h] <;> rfl
  constructor
  · intro hone
    have hcnt : admin_count db labId = 1 := by rw [← hcounts]; exact hone
    constructor
    · intro r hr upd hupd
      have hrne : r ≠ Role.admin := by
        intro hcon
        rw [hcon] at hr
        simp [is_admin_role] at hr
      unfold update_member
      rw [if_neg (by simp [hauth]), hfind]
      dsimp only
      rw [hupd]
      simp [hrne, hcnt, hmrole]
    · unfold remove_member
      rw [if_neg (by simp [hauth]), hfind]
      dsimp only
      simp [hmrole, hcnt]
  · intro htwo
    have hcnt : admin_count db labId = 2 := by rw [← hcounts]; exact htwo
    constructor
    · intro r hr upd hupd
      have hrne : r ≠ Role.admin := by
        intro hcon
        rw [hcon] at hr
        simp [is_admin_role] at hr
      unfold update_member
      rw [if_neg (by simp [hauth]), hfind]
      dsimp only
      rw [hupd]
      simp [hrne, hcnt]
    · unfold remove_member
      rw [if_neg (by simp [hauth]), hfind]
      dsimp only
      simp [hcnt]

/-- A lab with exactly one admin member (plus a viewer), the owner as
caller. -/
def c3_db_one : DB :=
  ⟨[⟨1, 10, none, none, none, 0⟩],
    [⟨1, 20, .admin, true, true, true, true, none⟩,
      ⟨1, 30, .viewer, false, false, false, false, none⟩],
    [], [], [], [], []⟩

/-- The same lab with a second admin member. -/
def c3_db_two : DB :=
  ⟨[⟨1, 10, none, none, none, 0⟩],
    [⟨1, 20, .admin, true, true, true, true, none⟩,
      ⟨1, 40, .admin, true, true, true, true, none⟩,
      ⟨1, 30, .viewer, false, false, false, false, none⟩],
    [], [], [], [], []⟩

/-- C3 witness: the last-admin protection theorem applied to a one-admin
lab (both operations rejected) and a two-admin lab (both succeed). -/
theorem c3_last_admin_protection_witness :
    (update_member c3_db_one 10 1 20 ⟨some .viewer, none, none, none, none⟩ =
      .error (.conflictError "Cannot remove the last admin from the lab")) ∧
    (remove_member c3_db_one 10 1 20 =
      .error (.conflictError "Cannot remove the last admin from the lab")) ∧
    (∃ db2 m2, update_member c3_db_two 10 1 20
      ⟨some .viewer, none, none, none, none⟩ = .ok (db2, m2)) ∧
    (∃ db2, remove_member c3_db_two 10 1 20 = .ok db2) := by
  have h1 := c3_last_admin_protection c3_db_one 1 10 20
    ⟨1, 20, .admin, true, true, true, true, none⟩
    (by unfold service_reachable_roles; decide) (by decide) (by decide)
    (by decide)
  have h2 := c3_last_admin_protection c3_db_two 1 10 20
    ⟨1, 20, .admin, true, true, true, true, none⟩
    (by unfold service_reachable_roles; decide) (by decide) (by decide)
    (by decide)
  refine ⟨?_, ?_, ?_, ?_⟩
  · exact (h1.1 (by decide)).1 .viewer (by decide)
      ⟨some .viewer, none, none, none, none⟩ rfl
  · exact (h1.1 (by decide)).2
  · exact (h2.2 (by decide)).1 .viewer (by decide)
      ⟨some .viewer, none, none, none, none⟩ rfl
  · exact (h2.2 (by decide)).2

/-! `KgSchemaService.activate_schema` (`app/services/kg_schema.py`). -/

/-- Count of queued/running `schema_migrate` jobs of the lab (the blocking
query of `activate_schema`). -/
def running_migrate_jobs (db : DB) (labId : Nat) : Nat :=
  (db.jobs.filter (fun j => j.labId == labId && j.jobType == "schema_migrate" &&
    (j.status == "queued" || j.status == "running"))).length

/-- The per-row effect of the deactivate-all query of `activate_schema`:
active schemas of the lab lose their flag. -/
def deactivateRow (labId : Nat) (s : SchemaRow) : SchemaRow :=
  if s.labId == labId && s.isActive then { s with isActive := false } else s

/-- The per-row effect of activating the target schema (the ORM write
`schema.is_active = True`, keyed by primary key). -/
def activateRow (schemaId : Nat) (s : SchemaRow) : SchemaRow :=
  if s.id == schemaId then { s with isActive := true } else s

/-- `KgSchemaService.activate_schema`: admin-only, schema must belong to
the lab, lab must exist and not be soft-deleted, blocked while migration
jobs run; then deactivate every active schema of the lab, activate the
target, and point the lab's `active_schema_id` at it. -/
def activate_schema (db : DB) (userId labId schemaId now : Nat) :
    Except ServiceError (DB × SchemaRow) :=
  match kg_get_user_role_in_lab db userId labId with
  | .error e => .error e
  | .ok role =>
    if ¬ is_admin_role role then
      .error (.authorizationError "Only lab admins can activate schemas")
    else
      match db.schemas.find? (fun s => s.id == schemaId && s.labId == labId) with
      | none =>
        .error (.notFoundError "Schema not found or does not belong to this lab")
      | some schema =>
        match db.labs.find? (fun l => l.id == labId && l.deletedAt == none) with
        | none => .error (.notFoundError "Lab not found")
        | some _lab =>
          if running_migrate_jobs db labId > 0 then
            .error (.conflictError "Cannot activate schema while migration jobs are running")
          else
            let deactivated := db.schemas.map (deactivateRow labId)
            let activated := deactivated.map (activateRow schemaId)
            let labs2 := db.labs.map (fun l =>
              if l.id == labId then { l with activeSchemaId := some schemaId, updatedAt := now } else l)
            .ok ({ db with schemas := activated, labs := labs2 },
              { schema with isActive := true })

theorem activateRow_deactivateRow_id {labId schemaId : Nat} (s : SchemaRow) :
    (activateRow schemaId (deactivateRow labId s)).id = s.id := by
  unfold activateRow deactivateRow
  split <;> split <;> rfl

theorem activateRow_deactivateRow_target {labId schemaId : Nat}
    {s : SchemaRow} (h : s.id = schemaId) :
    activateRow schemaId (deactivateRow labId s) = { s with isActive := true } := by
  unfold activateRow deactivateRow
  split
  · split
    · rfl
    · simp_all
  · split
    · simp_all
    · simp_all

theorem activateRow_deactivateRow_other {labId schemaId : Nat}
    {s : SchemaRow} (h : s.id ≠ schemaId) :
    ((activateRow schemaId (deactivateRow labId s)).labId == labId &&
      (activateRow schemaId (deactivateRow labId s)).isActive) = false := by
  unfold activateRow deactivateRow
  by_cases hl : (s.labId == labId && s.isActive) = true
  · rw [if_pos hl]
    rw [if_neg (by simpa using h)]
    simp
  · rw [if_neg hl]
    rw [if_neg (by simpa using h)]
    simpa using hl

theorem filter_activated_length {labId schemaId : Nat} {B : SchemaRow}
    (l : List SchemaRow) (hnodup : (l.map (·.id)).Nodup) (hB : B ∈ l)
    (hBid : B.id = schemaId) (hBlab : B.labId = labId) :
    (((l.map (deactivateRow labId)).map (activateRow schemaId)).filter
        (fun s => s.labId == labId && s.isActive)).length = 1 := by
  rw [List.map_map]
  induction l with
  | nil => simp at hB
  | cons r rs ih =>
    simp only [List.map_cons, List.nodup_cons] at hnodup
    simp only [List.map_cons, List.filter_cons, Function.comp_apply]
    by_cases hr : r.id = schemaId
    · have hrB : r = B := by
        rcases List.mem_cons.mp hB with h | h
        · exact h.symm
        · exfalso
          apply hnodup.1
          rw [hr, ← hBid]
          exact List.mem_map_of_mem (·.id) h
      have hhead : activateRow schemaId (deactivateRow labId r) =
          { r with isActive := true } := activateRow_deactivateRow_target hr
      rw [hhead]
      have hpred : (({ r with isActive := true } : SchemaRow).labId == labId &&
          ({ r with isActive := true } : SchemaRow).isActive) = true := by
        subst hrB
        simp [hBlab]
      rw [hpred]
      have htailnil : ((rs.map
          (activateRow schemaId ∘ deactivateRow labId)).filter
            (fun s => s.labId == labId && s.isActive)) = [] := by
        rw [List.filter_eq_nil_iff]
        intro a ha
        rcases List.mem_map.mp ha with ⟨s, hs, hsa⟩
        have hsid : s.id ≠ schemaId := by
          intro hcon
          apply hnodup.1
          rw [hr, ← hcon]
          exact List.mem_map_of_mem (·.id) hs
        rw [← hsa]
        simp only [Function.comp_apply]
        simp [activateRow_deactivateRow_other hsid]
      rw [htailnil]
      simp
    · have hpred : ((activateRow schemaId (deactivateRow labId r)).labId == labId &&
          (activateRow schemaId (deactivateRow labId r)).isActive) = false :=
        activateRow_deactivateRow_other hr
      rw [hpred]
      have hBrs : B ∈ rs := by
        rcases List.mem_cons.mp hB with h | h
        · exfalso
          apply hr
          rw [← h, hBid]
        · exact h
      have hlen := ih hnodup.2 hBrs
      simp only [Bool.false_eq_true, if_false]
      exact hlen

/-- C5: schema activation postcondition.  For a lab whose schema A is
currently active, activating schema B of the same lab (with the service's
preconditions satisfied) succeeds, leaves A inactive and B active, points
the lab's `active_schema_id` at B, and leaves exactly one active schema in
the lab. -/
theorem c5_activate_schema (db : DB) (userId labId schemaId now : Nat)
    (A B : SchemaRow) (lab : LabRow) (r : Role)
    (hrole : kg_get_user_role_in_lab db userId labId = .ok r)
    (hadmin : is_admin_role r = true)
    (hfindB : db.schemas.find? (fun s => s.id == schemaId && s.labId == labId)
      = some B)
    (hlab : db.labs.find? (fun l => l.id == labId && l.deletedAt == none)
      = some lab)
    (hjobs : running_migrate_jobs db labId = 0)
    (hA : A ∈ db.schemas) (hAlab : A.labId = labId) (hAact : A.isActive = true)
    (hAB : A.id ≠ schemaId)
    (hnodup : (db.schemas.map (·.id)).Nodup) :
    ∃ db2 B2, activate_schema db userId labId schemaId now = .ok (db2, B2) ∧
      B2.isActive = true ∧
      (∀ s ∈ db2.schemas, s.id = A.id → s.isActive = false) ∧
      (∀ s ∈ db2.schemas, s.id = schemaId → s.isActive = true) ∧
      (∀ l ∈ db2.labs, l.id = labId → l.activeSchemaId = some schemaId) ∧
      (db2.schemas.filter (fun s => s.labId == labId && s.isActive)).length = 1
    := by
  have hBprops := List.find?_some hfindB
  simp only [Bool.and_eq_true, beq_iff_eq] at hBprops
  obtain ⟨hBid, hBlab⟩ := hBprops
  have hBmem : B ∈ db.schemas := List.mem_of_find?_eq_some hfindB
  have hres : activate_schema db userId labId schemaId now =
      .ok ({ db with
          schemas := (db.schemas.map (deactivateRow labId)).map
            (activateRow schemaId),
          labs := db.labs.map (fun l =>
            if l.id == labId then { l with activeSchemaId := some schemaId, updatedAt := now } else l) },
        { B with isActive := true }) := by
    unfold activate_schema
    rw [hrole]
    dsimp only
    rw [if_neg (by simp [hadmin]), hfindB]
    dsimp only
    rw [hlab]
    dsimp only
    rw [if_neg (by simp [hjobs])]
  refine ⟨_, _, hres, rfl, ?_, ?_, ?_, ?_⟩
  · intro s hs hsid
    rcases List.mem_map.mp hs with ⟨t, ht, hta⟩
    rcases List.mem_map.mp ht with ⟨s0, hs0, hs0t⟩
    have hids : s.id = s0.id := by
      rw [← hta, ← hs0t]
      exact activateRow_deactivateRow_id s0
    have hs0A : s0 = A :=
      List.inj_on_of_nodup_map hnodup hs0 hA (by rw [← hids, hsid])
    subst hs0A
    have hd : deactivateRow labId s0 = { s0 with isActive := false } := by
      unfold deactivateRow
      rw [if_pos (by simp [hAlab, hAact])]
    rw [← hta, ← hs0t, hd]
    unfold activateRow
    rw [if_neg (by simpa using hAB)]
  · intro s hs hsid
    rcases List.mem_map.mp hs with ⟨t, ht, hta⟩
    rcases List.mem_map.mp ht with ⟨s0, hs0, hs0t⟩
    have hids : s0.id = schemaId := by
      rw [← hta, ← hs0t] at hsid
      rw [← hsid]
      exact (activateRow_deactivateRow_id s0).symm
    rw [← hta, ← hs0t, activateRow_deactivateRow_target hids]
  · intro l hl hlid
    rcases List.mem_map.mp hl with ⟨l0, hl0, hl0a⟩
    by_cases h0 : l0.id = labId
    · rw [← hl0a, if_pos (by simp [h0])]
    · exfalso
      apply h0
      rw [← hl0a] at hlid
      rw [if_neg (by simp [h0])] at hlid
      exact hlid
  · exact filter_activated_length db.schemas hnodup hBmem hBid hBlab

/-- A lab with two schemas, schema 5 active, activating schema 6. -/
def c5_db : DB :=
  ⟨[⟨1, 10, none, some 5, none, 0⟩], [], [⟨5, 1, true⟩, ⟨6, 1, false⟩], [],
    [], [], []⟩

/-- C5 witness: the activation theorem at the concrete two-schema lab. -/
theorem c5_activate_schema_witness :
    ∃ db2 B2, activate_schema c5_db 10 1 6 7 = .ok (db2, B2) ∧
      B2.isActive = true ∧
      (∀ s ∈ db2.schemas, s.id = 5 → s.isActive = false) ∧
      (∀ s ∈ db2.schemas, s.id = 6 → s.isActive = true) ∧
      (∀ l ∈ db2.labs, l.id = 1 → l.activeSchemaId = some 6) ∧
      (db2.schemas.filter (fun s => s.labId == 1 && s.isActive)).length = 1 :=
  c5_activate_schema c5_db 10 1 6 7 ⟨5, 1, true⟩ ⟨6, 1, false⟩
    ⟨1, 10, none, some 5, none, 0⟩ .owner rfl rfl rfl rfl rfl (by decide)
    rfl rfl (by decide) (by decide)

/-! `Neo4jConnectionService.create_connection`
(`app/services/neo4j_connection.py`).  The external graph database is an
oracle mapping connection coordinates to a verification outcome. -/

/-- Outcome of `build_client(uri, username, secret, database).verify()`:
success, or one of the three driver exception classes. -/
inductive Neo4jVerify where
  | ok
  | authError (msg : String)
  | serviceUnavailable (msg : String)
  | neo4jError (msg : String)
deriving DecidableEq

/-- The external graph database: coordinates (uri, username, secret id,
database name) to verification outcome. -/
def Neo4jOracle : Type :=
  String → String → String → String → Neo4jVerify

/-- `Neo4jConnectionCreate` (`app/schemas/neo4j_connection.py`). -/
structure ConnCreate where
  connectionName : String
  uri : String
  databaseName : String
  username : String
  secretId : String
  nspace : Option String
  schemaId : Option Nat
deriving DecidableEq

/-- `_verify_neo4j_connection` together with `_handle_neo4j_exception`:
every driver failure class surfaces as `ValidationError` with a
descriptive message. -/
def verify_neo4j_connection (neo4j : Neo4jOracle)
    (uri username secretId database action : String) :
    Except ServiceError Unit :=
  match neo4j uri username secretId database with
  | .ok => .ok ()
  | .authError m =>
    .error (.validationError
      ("Neo4j authentication failed while " ++ action ++ ": " ++ m))
  | .serviceUnavailable m =>
    .error (.validationError
      ("Unable to reach Neo4j at " ++ uri ++ " while " ++ action ++ ": " ++ m))
  | .neo4jError m =>
    .error (.validationError ("Neo4j error while " ++ action ++ ": " ++ m))

/-- Schema resolution of `create_connection`: an explicit `schema_id` must
belong to the lab, otherwise the lab's active schema is used, otherwise
`ValidationError`. -/
def resolve_schema_id (db : DB) (labId : Nat) (schemaId? : Option Nat) :
    Except ServiceError Nat :=
  match schemaId? with
  | some sid =>
    match db.schemas.find? (fun s => s.id == sid && s.labId == labId) with
    | none =>
      .error (.notFoundError "Schema not found or does not belong to this lab")
    | some _ => .ok sid
  | none =>
    match db.schemas.find? (fun s => s.labId == labId && s.isActive) with
    | none =>
      .error (.validationError "No schema specified and no active schema found")
    | some s => .ok s.id

/-- `Neo4jConnectionService.create_connection`: admin-only, lab must exist
and not be soft-deleted, connection name must be unique per lab, schema
resolved, pre-flight connectivity check, then the new row is inserted with
`is_active=True`. -/
def create_connection (neo4j : Neo4jOracle) (db : DB)
    (userId labId newId : Nat) (req : ConnCreate) :
    Except ServiceError (DB × ConnRow) :=
  match nc_get_user_role_in_lab db userId labId with
  | .error e => .error e
  | .ok role =>
    if ¬ is_admin_role role then
      .error (.authorizationError "Only lab admins can create Neo4j connections")
    else
      match db.labs.find? (fun l => l.id == labId && l.deletedAt == none) with
      | none => .error (.notFoundError "Lab not found")
      | some _lab =>
        if (db.connections.find? (fun c => c.labId == labId &&
            c.connectionName == req.connectionName)).isSome then
          .error (.conflictError "Connection with this name already exists")
        else
          match resolve_schema_id db labId req.schemaId with
          | .error e => .error e
          | .ok schemaId =>
            match verify_neo4j_connection neo4j req.uri req.username
                req.secretId req.databaseName "creating the connection" with
            | .error e => .error e
            | .ok _ =>
              let conn : ConnRow := ⟨newId, labId, req.connectionName, req.uri,
                req.databaseName, req.username, req.secretId,
                req.nspace.getD "default", schemaId, true⟩
              .ok ({ db with connections := db.connections ++ [conn] }, conn)

/-- Store state after a service call: the new state on success, and the
unchanged pre-call state when the call raised (the per-request transaction
is rolled back on unhandled failure). -/
def resultDB (r : Except ServiceError (DB × ConnRow)) (db : DB) : DB :=
  match r with
  | .ok (db2, _) => db2
  | .error _ => db

/-- C6: connection pre-flight atomicity.  When the caller is an authorized
admin, the lab exists, the name is free and the schema resolves, but the
supplied credentials fail authentication against the graph database,
`create_connection` raises `ValidationError` and the stored connection set
is unchanged. -/
theorem c6_preflight_gate (neo4j : Neo4jOracle) (db : DB)
    (userId labId newId : Nat) (req : ConnCreate) (r : Role) (sid : Nat)
    (msg : String)
    (hrole : nc_get_user_role_in_lab db userId labId = .ok r)
    (hadmin : is_admin_role r = true)
    (hlab : ∃ lab, db.labs.find? (fun l => l.id == labId && l.deletedAt == none)
      = some lab)
    (hdup : db.connections.find? (fun c => c.labId == labId &&
      c.connectionName == req.connectionName) = none)
    (hres : resolve_schema_id db labId req.schemaId = .ok sid)
    (hauth : neo4j req.uri req.username req.secretId req.databaseName =
      .authError msg) :
    create_connection neo4j db userId labId newId req =
      .error (.validationError
        ("Neo4j authentication failed while creating the connection: " ++ msg))
    ∧ (resultDB (create_connection neo4j db userId labId newId req) db).connections
        = db.connections := by
  obtain ⟨lab, hlab⟩ := hlab
  have hcall : create_connection neo4j db userId labId newId req =
      .error (.validationError
        ("Neo4j authentication failed while creating the connection: " ++ msg)) := by
    unfold create_connection
    rw [hrole]
    dsimp only
    rw [if_neg (by simp [hadmin]), hlab]
    dsimp only
    rw [if_neg (by simp [hdup]), hres]
    dsimp only
    unfold verify_neo4j_connection
    rw [hauth]
    rfl
  exact ⟨hcall, by rw [hcall]; rfl⟩

/-- C6 witness: the pre-flight gate at a concrete lab whose oracle rejects
the credentials. -/
theorem c6_preflight_gate_witness :
    create_connection (fun _ _ _ _ => .authError "bad credentials")
      ⟨[⟨1, 10, none, some 5, none, 0⟩], [], [⟨5, 1, true⟩], [], [], [], []⟩
      10 1 101 ⟨"c1", "bolt", "neo4j", "user", "secret-1", none, none⟩ =
      .error (.validationError
        ("Neo4j authentication failed while creating the connection: " ++
          "bad credentials")) ∧
    (resultDB (create_connection (fun _ _ _ _ => .authError "bad credentials")
      ⟨[⟨1, 10, none, some 5, none, 0⟩], [], [⟨5, 1, true⟩], [], [], [], []⟩
      10 1 101 ⟨"c1", "bolt", "neo4j", "user", "secret-1", none, none⟩)
      ⟨[⟨1, 10, none, some 5, none, 0⟩], [], [⟨5, 1, true⟩], [], [], [],
        []⟩).connections = [] :=
  c6_preflight_gate (fun _ _ _ _ => .authError "bad credentials")
    ⟨[⟨1, 10, none, some 5, none, 0⟩], [], [⟨5, 1, true⟩], [], [], [], []⟩
    10 1 101 ⟨"c1", "bolt", "neo4j", "user", "secret-1", none, none⟩
    .owner 5 "bad credentials" rfl rfl ⟨⟨1, 10, none, some 5, none, 0⟩, rfl⟩
    rfl rfl rfl

/-- A lab that already has an active connection (id 100) and an active
schema. -/
def c2_db : DB :=
  ⟨[⟨1, 10, none, some 5, some 100, 0⟩], [], [⟨5, 1, true⟩],
    [⟨100, 1, "c1", "bolt", "neo4j", "user", "secret-1", "default", 5, true⟩],
    [], [], []⟩

/-- C2: evaluating `create_connection` at a lab that already has an active
connection: the call succeeds and the lab ends up with two rows whose
`is_active` flag is set, violating the single-active-connection invariant
(`create_connection` inserts with `is_active=True` without deactivating
the others). -/
theorem c2_single_active_violation :
    ((c2_db.connections.filter (fun c => c.labId == 1 && c.isActive)).length
      = 1) ∧
    (((resultDB (create_connection (fun _ _ _ _ => .ok) c2_db 10 1 101
        ⟨"c2", "bolt", "neo4j", "user", "secret-1", none, none⟩) c2_db).connections.filter
          (fun c => c.labId == 1 && c.isActive)).length = 2) := by
  constructor
  · rfl
  · rfl

/-! `ResearchKeywordService.bulk_delete_keywords`
(`app/services/research_keyword.py`). -/

/-- `BulkOperationResult` (`app/schemas/research_keyword.py`), restricted
to the counters bulk delete writes; `errors` collects per-row failures. -/
structure BulkOperationResult where
  created : Nat
  updated : Nat
  skipped : Nat
  deleted : Nat
  notFound : Nat
  errors : List String
deriving DecidableEq

/-- `ResearchKeywordService._get_session_with_permissions`: session must
exist and not be soft-deleted, and the caller's resolved lab role must
carry the required capability. -/
def get_session_with_permissions (db : DB) (userId sessionId : Nat)
    (requiredPermission : Capability) : Except ServiceError BSessionRow :=
  match db.brainstormSessions.find? (fun s => s.id == sessionId &&
      s.deletedAt == none) with
  | none => .error (.notFoundError "Brainstorm session not found")
  | some s =>
    match rk_get_user_lab_role db userId s.labId with
    | none => .error (.authorizationError "Insufficient permissions")
    | some role =>
      if ¬ can_perform role requiredPermission then
        .error (.authorizationError "Insufficient permissions")
      else .ok s

/-- `ResearchKeywordService.bulk_delete_keywords`: permission gate on the
session, select the session's rows among the requested ids, count the
requested ids with no matching row as `not_found`, delete the matching
rows. -/
def bulk_delete_keywords (db : DB) (userId sessionId : Nat)
    (ids : List Nat) : Except ServiceError (DB × BulkOperationResult) :=
  match get_session_with_permissions db userId sessionId .create_brainstorm with
  | .error e => .error e
  | .ok _ =>
    let keywords := db.keywords.filter (fun kw => kw.sessionId == sessionId &&
      ids.contains kw.id)
    let foundIds := (keywords.map (·.id)).dedup
    let notFound := ids.length - foundIds.length
    let deleted := keywords.length
    let db2 := { db with keywords := db.keywords.filter (fun kw =>
      !(kw.sessionId == sessionId && ids.contains kw.id)) }
    .ok (db2, ⟨0, 0, 0, deleted, notFound, []⟩)

theorem length_filter_not {α : Type} (q : α → Bool) (l : List α) :
    (l.filter q).length + (l.filter (fun x => !q x)).length = l.length := by
  induction l with
  | nil => rfl
  | cons a as ih =>
    simp only [List.filter_cons]
    by_cases h : q a = true
    · rw [h, if_pos rfl, if_neg (by simp [h])]
      simp only [List.length_cons]
      omega
    · have h2 : q a = false := by simpa using h
      rw [h2, if_neg (by simp), if_pos (by simp [h2])]
      simp only [List.length_cons]
      omega

/-- C10: bulk-delete session scoping.  With distinct requested ids,
distinct stored keyword ids, and a caller passing the session permission
gate: exactly the requested rows of the target session are removed, other
rows (including same-id keywords of other sessions) are untouched,
`not_found` counts exactly the requested ids with no matching row in the
session, and `deleted + not_found` equals the number of requested ids. -/
theorem c10_bulk_delete_scoping (db : DB) (userId sessionId : Nat)
    (ids : List Nat) (sess : BSessionRow)
    (hsess : get_session_with_permissions db userId sessionId
      .create_brainstorm = .ok sess)
    (hnodupKw : (db.keywords.map (·.id)).Nodup)
    (hnodupIds : ids.Nodup) :
    ∃ db2 res, bulk_delete_keywords db userId sessionId ids = .ok (db2, res) ∧
      db2.keywords = db.keywords.filter (fun kw =>
        !(kw.sessionId == sessionId && ids.contains kw.id)) ∧
      (∀ kw ∈ db.keywords, ¬(kw.sessionId = sessionId ∧ kw.id ∈ ids) →
        kw ∈ db2.keywords) ∧
      res.deleted + res.notFound = ids.length ∧
      res.notFound = (ids.filter (fun i => !(db.keywords.any (fun kw =>
        kw.id == i && kw.sessionId == sessionId)))).length := by
  have hcall : bulk_delete_keywords db userId sessionId ids =
      .ok ({ db with keywords := db.keywords.filter (fun kw =>
          !(kw.sessionId == sessionId && ids.contains kw.id)) },
        ⟨0, 0, 0,
          (db.keywords.filter (fun kw => kw.sessionId == sessionId &&
            ids.contains kw.id)).length,
          ids.length - ((db.keywords.filter (fun kw =>
            kw.sessionId == sessionId &&
              ids.contains kw.id)).map (·.id)).dedup.length, []⟩) := by
    unfold bulk_delete_keywords
    rw [hsess]
  have hsub : ((db.keywords.filter (fun kw => kw.sessionId == sessionId &&
      ids.contains kw.id)).map (·.id)).Nodup :=
    ((List.filter_sublist db.keywords).map (·.id)).nodup hnodupKw
  have hdedup : ((db.keywords.filter (fun kw => kw.sessionId == sessionId &&
      ids.contains kw.id)).map (·.id)).dedup.length =
      (db.keywords.filter (fun kw => kw.sessionId == sessionId &&
        ids.contains kw.id)).length := by
    rw [List.dedup_eq_self.mpr hsub, List.length_map]
  have hperm : ((db.keywords.filter (fun kw => kw.sessionId == sessionId &&
      ids.contains kw.id)).map (·.id)).Perm
      (ids.filter (fun i => db.keywords.any (fun kw =>
        kw.id == i && kw.sessionId == sessionId))) := by
    rw [List.perm_ext_iff_of_nodup hsub (hnodupIds.filter _)]
    intro a
    constructor
    · intro ha
      rcases List.mem_map.mp ha with ⟨kw, hkw, hka⟩
      rcases List.mem_filter.mp hkw with ⟨hkwmem, hkwp⟩
      simp only [Bool.and_eq_true, beq_iff_eq] at hkwp
      rw [List.mem_filter]
      constructor
      · rw [← hka]
        simpa using hkwp.2
      · rw [List.any_eq_true]
        refine ⟨kw, hkwmem, ?_⟩
        simp [hka, hkwp.1]
    · intro ha
      rcases List.mem_filter.mp ha with ⟨haids, hany⟩
      rw [List.any_eq_true] at hany
      rcases hany with ⟨kw, hkwmem, hkwp⟩
      simp only [Bool.and_eq_true, beq_iff_eq] at hkwp
      rw [List.mem_map]
      refine ⟨kw, ?_, hkwp.1⟩
      rw [List.mem_filter]
      refine ⟨hkwmem, ?_⟩
      simp only [Bool.and_eq_true, beq_iff_eq]
      exact ⟨hkwp.2, by rw [hkwp.1]; simpa using haids⟩
  have hflen : (db.keywords.filter (fun kw => kw.sessionId == sessionId &&
      ids.contains kw.id)).length =
      (ids.filter (fun i => db.keywords.any (fun kw =>
        kw.id == i && kw.sessionId == sessionId))).length := by
    have := hperm.length_eq
    rw [List.length_map] at this
    exact this
  have hle : (ids.filter (fun i => db.keywords.any (fun kw =>
      kw.id == i && kw.sessionId == sessionId))).length ≤ ids.length :=
    List.length_filter_le _ _
  refine ⟨_, _, hcall, rfl, ?_, ?_, ?_⟩
  · intro kw hkw hnot
    rw [List.mem_filter]
    refine ⟨hkw, ?_⟩
    simp only [Bool.not_eq_true', Bool.and_eq_false_iff]
    by_cases hs : kw.sessionId = sessionId
    · right
      have : kw.id ∉ ids := fun hin => hnot ⟨hs, hin⟩
      simpa using this
    · left
      simpa using hs
  · simp only []
    rw [hdedup, hflen]
    omega
  · simp only []
    rw [hdedup, hflen]
    have := length_filter_not (fun i => db.keywords.any (fun kw =>
      kw.id == i && kw.sessionId == sessionId)) ids
    omega

/-- A lab with one brainstorm session (id 50) holding keywords 1 and 2;
keyword 3 belongs to another session. -/
def c10_db : DB :=
  ⟨[⟨1, 10, none, none, none, 0⟩], [], [], [], [], [⟨50, 1, none⟩],
    [⟨1, 50⟩, ⟨2, 50⟩, ⟨3, 60⟩]⟩

/-- C10 witness: the scoping theorem at a concrete request naming one id
of the session, one id of another session, and one unknown id. -/
theorem c10_bulk_delete_scoping_witness :
    ∃ db2 res, bulk_delete_keywords c10_db 10 50 [1, 3, 9] = .ok (db2, res) ∧
      db2.keywords = c10_db.keywords.filter (fun kw =>
        !(kw.sessionId == 50 && [1, 3, 9].contains kw.id)) ∧
      (∀ kw ∈ c10_db.keywords, ¬(kw.sessionId = 50 ∧ kw.id ∈ [1, 3, 9]) →
        kw ∈ db2.keywords) ∧
      res.deleted + res.notFound = [1, 3, 9].length ∧
      res.notFound = ([1, 3, 9].filter (fun i => !(c10_db.keywords.any
        (fun kw => kw.id == i && kw.sessionId == 50)))).length :=
  c10_bulk_delete_scoping c10_db 10 50 [1, 3, 9] ⟨50, 1, none⟩ rfl
    (by decide) (by decide)

end GraphLab
